import Mathlib

/-!
Shallow embedding of src/git_repo.py: the GitRepoManager class and the
command-line dispatch of main.  The filesystem is a state (directories,
files with contents, and the repository's remote table), every external
tool invocation is recorded in a trace, and subprocess failures are an
oracle supplied by the environment.  sys.exit(code) is an Except.error
carrying the exit code together with the state at exit; falling off main
is Except.ok, which the operating system reports as exit code 0.
-/

/-- Python os.path.isabs: the path starts with a slash. -/
def isAbs (p : String) : Bool :=
  p.data.head? == some '/'

/-- Python str.endswith applied to a single slash. -/
def endsWithSlash (s : String) : Bool :=
  s.data.getLast? == some '/'

/-- Python os.path.join (posixpath, two arguments): an absolute second
component discards the first; otherwise the components are glued with a
single slash unless the first is empty or already ends in one. -/
def pyJoin (a b : String) : String :=
  if isAbs b then b
  else if a = "" ∨ endsWithSlash a then a ++ b
  else a ++ "/" ++ b

/-- The leading-slash count posixpath.normpath preserves: one slash stays
one, exactly two stay two, three or more collapse to one. -/
def initSlashes (path : String) : Nat :=
  if path.data.head? = some '/' then
    if (path.data.drop 1).head? = some '/' then
      if (path.data.drop 2).head? = some '/' then 1 else 2
    else 1
  else 0

/-- Python str.split with a one-character separator, on the character
list: splitting the empty text gives one empty piece, and every separator
occurrence opens a new piece. -/
def splitOnChar (sep : Char) : List Char → List (List Char)
  | [] => [[]]
  | c :: rest =>
    if c = sep then [] :: splitOnChar sep rest
    else
      match splitOnChar sep rest with
      | [] => [[c]]
      | h :: t => (c :: h) :: t

/-- Python str.split with a one-character separator. -/
def pySplit (s : String) (sep : Char) : List String :=
  (splitOnChar sep s.data).map String.mk

/-- Python str.join over a list of strings. -/
def joinSep (sep : String) : List String → String
  | [] => ""
  | [x] => x
  | x :: y :: xs => x ++ sep ++ joinSep sep (y :: xs)

/-- One step of posixpath.normpath's component loop: empty and dot
components are dropped, dot-dot pops the previous component unless the
path is relative and empty so far or the previous component is itself a
dot-dot. -/
def normStep (k : Nat) (acc : List String) (comp : String) : List String :=
  if comp = "" ∨ comp = "." then acc
  else if comp ≠ ".." ∨ (k = 0 ∧ acc = []) ∨ (acc ≠ [] ∧ acc.getLast? = some "..") then
    acc ++ [comp]
  else
    acc.dropLast

/-- Python posixpath.normpath. -/
def normpath (path : String) : String :=
  if path = "" then "."
  else
    let k := initSlashes path
    let comps := (pySplit path '/').foldl (normStep k) []
    let res := String.mk (List.replicate k '/') ++ joinSep "/" comps
    if res = "" then "." else res

/-- Python os.path.abspath relative to an explicit current working
directory: a relative path is joined onto cwd, then normalized. -/
def abspath (cwd path : String) : String :=
  if isAbs path then normpath path else normpath (pyJoin cwd path)

/-- Whitespace as str.strip removes it (the ASCII whitespace characters). -/
def isPySpace (c : Char) : Bool :=
  c = ' ' ∨ c = '\t' ∨ c = '\n' ∨ c = '\r' ∨ c = '\x0b' ∨ c = '\x0c'

/-- Python str.strip with no argument: drop whitespace from both ends. -/
def pyStrip (s : String) : String :=
  String.mk (((s.data.dropWhile isPySpace).reverse.dropWhile isPySpace).reverse)

/-- The constructor's comma-string form of tracked_files: split on commas,
strip each segment, keep the nonempty results
(the comprehension on line 54 of src/git_repo.py). -/
def parseTracked (s : String) : List String :=
  (pySplit s ',').filterMap (fun f =>
    let g := pyStrip f
    if g = "" then none else some g)

/-- The Union[List[str], str] argument of the constructor. -/
inductive TrackedArg where
  | ofString (s : String)
  | ofList (l : List String)
deriving DecidableEq

/-- The fields GitRepoManager.__init__ stores. -/
structure GitRepoManager where
  repo_path : String
  tracked_files : List String
  branch : String
deriving DecidableEq

/-- GitRepoManager.__init__: repo_path is made absolute against the
process's current working directory, a string tracked_files argument is
parsed, a list is stored unchanged, branch is stored as given. -/
def mkManager (cwd repoPath : String) (tracked : TrackedArg) (branch : String) : GitRepoManager :=
  { repo_path := abspath cwd repoPath,
    tracked_files :=
      match tracked with
      | .ofString s => parseTracked s
      | .ofList l => l,
    branch := branch }

/-- The filesystem and repository state the wrapper can observe:
directories, files with contents, and the remote table of the repository
(the repository's branch and commit state stays opaque, as the spec says). -/
structure FS where
  dirs : List String
  files : List (String × String)
  remotes : List (String × String)
deriving DecidableEq

/-- Python os.path.exists: the path is a directory or a file. -/
def pexists (fs : FS) (p : String) : Bool :=
  fs.dirs.contains p || (fs.files.map Prod.fst).contains p

/-- Python os.path.isdir. -/
def isDir (fs : FS) (p : String) : Bool :=
  fs.dirs.contains p

/-- The content of the file at a path, when one exists. -/
def fileContent (fs : FS) (p : String) : Option String :=
  (fs.files.find? (fun e => e.1 = p)).map Prod.snd

/-- Python os.makedirs, abstracted to recording the created directory. -/
def FS.makedirs (fs : FS) (p : String) : FS :=
  { fs with dirs := p :: fs.dirs }

/-- Python open(p, 'w') followed by write(c): the path now holds c. -/
def FS.writeFile (fs : FS) (p c : String) : FS :=
  { fs with files := (p, c) :: fs.files }

/-- The names the output of the remote-list command decodes and splits to. -/
def remoteNames (fs : FS) : List String :=
  fs.remotes.map Prod.fst

/-- One external git invocation of src/git_repo.py. -/
inductive Invocation where
  | version
  | init (path : String)
  | checkoutB (path branch : String)
  | add (path file : String)
  | commit (path msg : String)
  | push (path remote branch : String)
  | status (path : String)
  | log (path : String)
  | diff (path : String)
  | branchList (path : String)
  | checkout (path branch : String)
  | remoteList (path : String)
  | remoteSetUrl (path name url : String)
  | remoteAdd (path name url : String)
deriving DecidableEq

/-- The exact argument vector the source passes to subprocess for each
invocation (discrete tokens, no shell). -/
def Invocation.argv : Invocation → List String
  | .version => ["git", "--version"]
  | .init p => ["git", "init", p]
  | .checkoutB p b => ["git", "-C", p, "checkout", "-b", b]
  | .add p f => ["git", "-C", p, "add", f]
  | .commit p m => ["git", "-C", p, "commit", "-m", m]
  | .push p r b => ["git", "-C", p, "push", r, b]
  | .status p => ["git", "-C", p, "status"]
  | .log p => ["git", "-C", p, "log", "--oneline"]
  | .diff p => ["git", "-C", p, "diff"]
  | .branchList p => ["git", "-C", p, "branch"]
  | .checkout p b => ["git", "-C", p, "checkout", b]
  | .remoteList p => ["git", "-C", p, "remote"]
  | .remoteSetUrl p n u => ["git", "-C", p, "remote", "set-url", n, u]
  | .remoteAdd p n u => ["git", "-C", p, "remote", "add", n, u]

/-- The effect a successful invocation has on the observable state:
git init creates the .git directory under its path, remote add appends an
entry, remote set-url rewrites the named entry's URL; every other
invocation touches only state this embedding keeps opaque. -/
def applyInv : Invocation → FS → FS
  | .init p, fs => fs.makedirs (pyJoin p ".git")
  | .remoteAdd _ n u, fs => { fs with remotes := fs.remotes ++ [(n, u)] }
  | .remoteSetUrl _ n u, fs =>
      { fs with remotes := fs.remotes.map (fun e => if e.1 = n then (n, u) else e) }
  | _, fs => fs

/-- The environment: which external commands fail (a missing git binary
makes every one fail), which filesystem operations raise, and the
timestamp text datetime.now supplies for the default commit message. -/
structure Env where
  cmdFails : List String → Bool
  mkdirFails : String → Bool
  openFails : String → Bool
  now : String

/-- The run's observable state: the filesystem and the trace of attempted
external invocations, in order. -/
structure St where
  fs : FS
  trace : List Invocation
deriving DecidableEq

/-- The result of a run: ok is a completed run (process exit code 0),
error carries sys.exit's code and the state at exit. -/
abbrev Res := Except (Nat × St) St

/-- Attempt one external invocation: it is recorded in the trace either
way; on failure the caller's except-branch runs sys.exit(1), on success
the invocation's effect applies. -/
def runInv (env : Env) (inv : Invocation) (s : St) : Res :=
  if env.cmdFails inv.argv then .error (1, { fs := s.fs, trace := s.trace ++ [inv] })
  else .ok { fs := applyInv inv s.fs, trace := s.trace ++ [inv] }

/-- GitRepoManager.check_git_installed: probe git --version, exit 1 if it
fails. -/
def check_git_installed (env : Env) (s : St) : Res :=
  runInv env .version s

/-- GitRepoManager.ensure_repo_path: create the repository directory when
the path does not exist; exit 1 when creation raises. -/
def ensure_repo_path (m : GitRepoManager) (env : Env) (s : St) : Res :=
  if !(pexists s.fs m.repo_path) then
    if env.mkdirFails m.repo_path then .error (1, s)
    else .ok { s with fs := s.fs.makedirs m.repo_path }
  else .ok s

/-- The loop body of GitRepoManager.ensure_tracked_files over the tracked
file names: create an empty file at each joined path that does not exist;
exit 1 when a creation raises. -/
def ensureFilesAux (env : Env) (repo : String) (names : List String) (s : St) : Res :=
  match names with
  | [] => .ok s
  | f :: rest =>
    let fp := pyJoin repo f
    if !(pexists s.fs fp) then
      if env.openFails fp then .error (1, s)
      else ensureFilesAux env repo rest { s with fs := s.fs.writeFile fp "" }
    else ensureFilesAux env repo rest s

/-- GitRepoManager.ensure_tracked_files. -/
def ensure_tracked_files (m : GitRepoManager) (env : Env) (s : St) : Res :=
  ensureFilesAux env m.repo_path m.tracked_files s

/-- GitRepoManager.is_git_repo: a .git directory exists under repo_path. -/
def is_git_repo (m : GitRepoManager) (fs : FS) : Bool :=
  isDir fs (pyJoin m.repo_path ".git")

/-- GitRepoManager.initialize_repo: when no repository metadata is
present, run git init then create and check out the configured branch;
otherwise do nothing. -/
def initialize_repo (m : GitRepoManager) (env : Env) (s : St) : Res :=
  if !(is_git_repo m s.fs) then do
    let s1 ← runInv env (.init m.repo_path) s
    runInv env (.checkoutB m.repo_path m.branch) s1
  else .ok s

/-- The loop body of GitRepoManager.add_files: one add invocation per
tracked name, in order, exiting 1 at the first failure. -/
def addFilesAux (env : Env) (repo : String) (names : List String) (s : St) : Res :=
  match names with
  | [] => .ok s
  | f :: rest => do
    let s1 ← runInv env (.add repo (pyJoin repo f)) s
    addFilesAux env repo rest s1

/-- GitRepoManager.add_files. -/
def add_files (m : GitRepoManager) (env : Env) (s : St) : Res :=
  addFilesAux env m.repo_path m.tracked_files s

/-- GitRepoManager.commit_changes: a missing message is synthesized from
the current timestamp. -/
def commit_changes (m : GitRepoManager) (env : Env) (msg : Option String) (s : St) : Res :=
  let message :=
    match msg with
    | none => "Update tracked files on " ++ env.now
    | some t => t
  runInv env (.commit m.repo_path message) s

/-- GitRepoManager.check_status. -/
def check_status (m : GitRepoManager) (env : Env) (s : St) : Res :=
  runInv env (.status m.repo_path) s

/-- GitRepoManager.push_to_remote: the branch defaults to the manager's. -/
def push_to_remote (m : GitRepoManager) (env : Env) (remoteName : String)
    (branch : Option String) (s : St) : Res :=
  let b :=
    match branch with
    | none => m.branch
    | some x => x
  runInv env (.push m.repo_path remoteName b) s

/-- GitRepoManager.log_history. -/
def log_history (m : GitRepoManager) (env : Env) (s : St) : Res :=
  runInv env (.log m.repo_path) s

/-- GitRepoManager.diff_files. -/
def diff_files (m : GitRepoManager) (env : Env) (s : St) : Res :=
  runInv env (.diff m.repo_path) s

/-- GitRepoManager.list_branches. -/
def list_branches (m : GitRepoManager) (env : Env) (s : St) : Res :=
  runInv env (.branchList m.repo_path) s

/-- GitRepoManager.switch_branch. -/
def switch_branch (m : GitRepoManager) (env : Env) (branch : String) (s : St) : Res :=
  runInv env (.checkout m.repo_path branch) s

/-- GitRepoManager.add_remote: query the remote names, then update the
URL when the name is listed and add a new remote otherwise. -/
def add_remote (m : GitRepoManager) (env : Env) (remoteName remoteUrl : String) (s : St) : Res := do
  let s1 ← runInv env (.remoteList m.repo_path) s
  if (remoteNames s1.fs).contains remoteName then
    runInv env (.remoteSetUrl m.repo_path remoteName remoteUrl) s1
  else
    runInv env (.remoteAdd m.repo_path remoteName remoteUrl) s1

/-- The bootstrap sequence the init and interactive flows run after the
git probe: ensure_repo_path, ensure_tracked_files, initialize_repo. -/
def bootstrap (m : GitRepoManager) (env : Env) (s : St) : Res := do
  let s1 ← ensure_repo_path m env s
  let s2 ← ensure_tracked_files m env s1
  initialize_repo m env s2

/-- The CLI subcommands of main (the interactive menu loop is input-driven
presentation and stays outside this embedding). -/
inductive Subcommand where
  | init (repoPath trackedFiles branch : String)
  | add (repoPath trackedFiles : String)
  | commit (repoPath : String) (message : Option String)
  | status (repoPath : String)
  | push (repoPath : String) (remote : String) (branch : Option String)
  | log (repoPath : String)
  | diff (repoPath : String)
  | listBranches (repoPath : String)
  | switchBranch (repoPath branch : String)
  | addRemote (repoPath remoteName remoteUrl : String)
deriving DecidableEq

/-- The dispatch of main: each subcommand builds a manager exactly as the
source does and runs the corresponding method. -/
def runSubcommand (cwd : String) (env : Env) (sc : Subcommand) (s : St) : Res :=
  match sc with
  | .init rp tf br => do
    let m := mkManager cwd rp (.ofString tf) br
    let s1 ← check_git_installed env s
    bootstrap m env s1
  | .add rp tf =>
    add_files (mkManager cwd rp (.ofString tf) "main") env s
  | .commit rp msg =>
    commit_changes (mkManager cwd rp (.ofList []) "main") env msg s
  | .status rp =>
    check_status (mkManager cwd rp (.ofList []) "main") env s
  | .push rp remote br =>
    push_to_remote (mkManager cwd rp (.ofList []) "main") env remote br s
  | .log rp =>
    log_history (mkManager cwd rp (.ofList []) "main") env s
  | .diff rp =>
    diff_files (mkManager cwd rp (.ofList []) "main") env s
  | .listBranches rp =>
    list_branches (mkManager cwd rp (.ofList []) "main") env s
  | .switchBranch rp br =>
    switch_branch (mkManager cwd rp (.ofList []) "main") env br s
  | .addRemote rp n u =>
    add_remote (mkManager cwd rp (.ofList []) "main") env n u s

/-- The process exit code a result stands for. -/
def exitCode (r : Res) : Nat :=
  match r with
  | .ok _ => 0
  | .error (e, _) => e

/-- The observable state when the process terminates, on either path. -/
def finalState (r : Res) : St :=
  match r with
  | .ok s => s
  | .error (_, s) => s

/-- Growth order on observable filesystems: directories stay directories,
existing paths keep existing, and file contents are preserved. -/
def FS.incl (a b : FS) : Prop :=
  (∀ p, isDir a p = true → isDir b p = true) ∧
  (∀ p, pexists a p = true → pexists b p = true) ∧
  (∀ p c, fileContent a p = some c → fileContent b p = some c)

/-- Every exit the embedded source can take carries exit code 1. -/
def ErrOne (r : Res) : Prop :=
  ∀ e s', r = .error (e, s') → e = 1

/-- An environment in which git is installed and no command or filesystem
operation fails. -/
def envOk : Env := ⟨fun _ => false, fun _ => false, fun _ => false, "2025-02-23 12:00:00"⟩

/-- An environment in which exactly one add invocation fails. -/
def envFailAdd : Env :=
  ⟨fun a => a == ["git", "-C", "/r", "add", "/r/b.txt"], fun _ => false, fun _ => false, "T"⟩

/-- An environment in which the git binary is missing or not executable:
every external invocation fails. -/
def envAllFail : Env := ⟨fun _ => true, fun _ => true, fun _ => true, "T"⟩

/-- A state with one unrelated remote already configured. -/
def sRemote : St := ⟨⟨[], [], [("up", "x")]⟩, []⟩

instance {ε α : Type} [DecidableEq ε] [DecidableEq α] : DecidableEq (Except ε α) :=
  fun a b =>
    match a, b with
    | .ok x, .ok y =>
      if h : x = y then .isTrue (by rw [h]) else .isFalse (by intro hc; cases hc; exact h rfl)
    | .error x, .error y =>
      if h : x = y then .isTrue (by rw [h]) else .isFalse (by intro hc; cases hc; exact h rfl)
    | .ok _, .error _ => .isFalse (by intro hc; cases hc)
    | .error _, .ok _ => .isFalse (by intro hc; cases hc)

/-- Inversion for a successful bind of two run steps. -/
theorem except_bind_ok {ε α β : Type} {a : Except ε α} {f : α → Except ε β} {v : β}
    (h : a >>= f = .ok v) : ∃ u, a = .ok u ∧ f u = .ok v := by
  cases a with
  | error e => exact absurd h (by simp [Bind.bind, Except.bind])
  | ok u => exact ⟨u, rfl, by simpa [Bind.bind, Except.bind] using h⟩

/-- A successful first step lets the bind reduce. -/
theorem except_bind_of_ok {ε α β : Type} {a : Except ε α} {f : α → Except ε β} {u : α}
    (h : a = .ok u) : a >>= f = f u := by
  subst h; rfl

/-- A failed first step makes the bind fail the same way. -/
theorem except_bind_of_error {ε α β : Type} {a : Except ε α} {f : α → Except ε β} {e : ε}
    (h : a = .error e) : a >>= f = .error e := by
  subst h; rfl

theorem FS.incl_refl (a : FS) : FS.incl a a :=
  ⟨fun _ h => h, fun _ h => h, fun _ _ h => h⟩

theorem FS.incl_trans {a b c : FS} (h1 : FS.incl a b) (h2 : FS.incl b c) : FS.incl a c :=
  ⟨fun p h => h2.1 p (h1.1 p h), fun p h => h2.2.1 p (h1.2.1 p h),
   fun p cc h => h2.2.2 p cc (h1.2.2 p cc h)⟩

theorem contains_iff_mem {α : Type} [BEq α] [LawfulBEq α] {l : List α} {a : α} :
    l.contains a = true ↔ a ∈ l := List.elem_iff

theorem isDir_makedirs (fs : FS) (q p : String) (h : isDir fs p = true) :
    isDir (fs.makedirs q) p = true := by
  simp only [isDir, contains_iff_mem, FS.makedirs] at *
  exact List.mem_cons_of_mem q h

theorem pexists_makedirs (fs : FS) (q p : String) (h : pexists fs p = true) :
    pexists (fs.makedirs q) p = true := by
  simp only [pexists, FS.makedirs, List.contains_cons, Bool.or_eq_true] at *
  rcases h with h | h
  · exact Or.inl (Or.inr h)
  · exact Or.inr h

theorem fileContent_makedirs (fs : FS) (q p : String) :
    fileContent (fs.makedirs q) p = fileContent fs p := rfl

theorem FS.makedirs_incl (fs : FS) (q : String) : FS.incl fs (fs.makedirs q) :=
  ⟨fun p h => isDir_makedirs fs q p h, fun p h => pexists_makedirs fs q p h,
   fun p c h => by rw [fileContent_makedirs]; exact h⟩

theorem pexists_of_fileContent {fs : FS} {p c : String} (h : fileContent fs p = some c) :
    pexists fs p = true := by
  simp only [fileContent, Option.map_eq_some'] at h
  obtain ⟨e, he, -⟩ := h
  have hmem := List.mem_of_find?_eq_some he
  have hp := List.find?_some he
  simp only [decide_eq_true_eq] at hp
  simp only [pexists, Bool.or_eq_true, contains_iff_mem]
  exact Or.inr (by rw [← hp]; exact List.mem_map_of_mem Prod.fst hmem)

theorem isDir_writeFile (fs : FS) (q c p : String) :
    isDir (fs.writeFile q c) p = isDir fs p := rfl

theorem pexists_writeFile (fs : FS) (q c p : String) (h : pexists fs p = true) :
    pexists (fs.writeFile q c) p = true := by
  simp only [pexists, FS.writeFile, List.map_cons, List.contains_cons, Bool.or_eq_true] at *
  rcases h with h | h
  · exact Or.inl h
  · exact Or.inr (Or.inr h)

theorem pexists_writeFile_self (fs : FS) (q c : String) :
    pexists (fs.writeFile q c) q = true := by
  simp [pexists, FS.writeFile]

theorem fileContent_writeFile_self (fs : FS) (q c : String) :
    fileContent (fs.writeFile q c) q = some c := by
  simp [fileContent, FS.writeFile, List.find?]

theorem fileContent_writeFile_of_ne (fs : FS) (q c p : String) (h : p ≠ q) :
    fileContent (fs.writeFile q c) p = fileContent fs p := by
  simp only [fileContent, FS.writeFile]
  rw [List.find?_cons_of_neg]
  simp only [decide_eq_true_eq]
  exact Ne.symm h

theorem FS.writeFile_incl (fs : FS) (q c : String) (hq : fileContent fs q = none) :
    FS.incl fs (fs.writeFile q c) := by
  refine ⟨fun p h => h, fun p h => pexists_writeFile fs q c p h, fun p cc h => ?_⟩
  by_cases hpq : p = q
  · rw [hpq] at h; rw [h] at hq; cases hq
  · rw [fileContent_writeFile_of_ne fs q c p hpq]; exact h

theorem fileContent_none_of_not_pexists {fs : FS} {p : String} (h : pexists fs p = false) :
    fileContent fs p = none := by
  cases hc : fileContent fs p with
  | none => rfl
  | some c => rw [pexists_of_fileContent hc] at h; cases h

/-- Every invocation's effect only grows the observable filesystem. -/
theorem applyInv_incl (inv : Invocation) (fs : FS) : FS.incl fs (applyInv inv fs) := by
  cases inv with
  | init p => exact FS.makedirs_incl fs (pyJoin p ".git")
  | remoteAdd p n u => exact ⟨fun _ h => h, fun _ h => h, fun _ _ h => h⟩
  | remoteSetUrl p n u => exact ⟨fun _ h => h, fun _ h => h, fun _ _ h => h⟩
  | _ => exact FS.incl_refl fs

theorem runInv_fail {env : Env} {inv : Invocation} {s : St} (h : env.cmdFails inv.argv = true) :
    runInv env inv s = .error (1, ⟨s.fs, s.trace ++ [inv]⟩) := by
  unfold runInv; rw [if_pos h]

theorem runInv_succ {env : Env} {inv : Invocation} {s : St} (h : env.cmdFails inv.argv = false) :
    runInv env inv s = .ok ⟨applyInv inv s.fs, s.trace ++ [inv]⟩ := by
  unfold runInv; rw [if_neg (by simp [h])]

theorem runInv_ok_iff {env : Env} {inv : Invocation} {s s' : St} :
    runInv env inv s = .ok s' ↔
      env.cmdFails inv.argv = false ∧ s' = ⟨applyInv inv s.fs, s.trace ++ [inv]⟩ := by
  constructor
  · intro h
    cases hc : env.cmdFails inv.argv with
    | true => rw [runInv_fail hc] at h; cases h
    | false => rw [runInv_succ hc] at h; exact ⟨rfl, (Except.ok.inj h).symm⟩
  · rintro ⟨hc, rfl⟩
    exact runInv_succ hc

theorem pexists_makedirs_self (fs : FS) (p : String) :
    pexists (fs.makedirs p) p = true := by
  simp [pexists, FS.makedirs]

theorem pexists_writeFile_of_ne (fs : FS) (q c p : String) (h : p ≠ q) :
    pexists (fs.writeFile q c) p = pexists fs p := by
  simp only [pexists, FS.writeFile, List.map_cons, List.contains_cons]
  have : (p == q) = false := by simp [h]
  simp [this]

theorem ensure_repo_path_ok {m : GitRepoManager} {env : Env} {s s' : St}
    (h : ensure_repo_path m env s = .ok s') :
    FS.incl s.fs s'.fs ∧ pexists s'.fs m.repo_path = true ∧ s'.trace = s.trace := by
  unfold ensure_repo_path at h
  by_cases hx : pexists s.fs m.repo_path = true
  · rw [if_neg (by simp [hx])] at h
    cases h
    exact ⟨FS.incl_refl _, hx, rfl⟩
  · rw [if_pos (by simp [Bool.not_eq_true] at hx ⊢; exact hx)] at h
    by_cases hm : env.mkdirFails m.repo_path = true
    · rw [if_pos hm] at h; cases h
    · rw [if_neg hm] at h
      cases h
      exact ⟨FS.makedirs_incl s.fs m.repo_path, pexists_makedirs_self s.fs m.repo_path, rfl⟩

theorem ensure_repo_path_already {m : GitRepoManager} {env : Env} {s : St}
    (h : pexists s.fs m.repo_path = true) : ensure_repo_path m env s = .ok s := by
  unfold ensure_repo_path
  rw [if_neg (by simp [h])]

theorem ensureFilesAux_ok (env : Env) (repo : String) (names : List String) :
    ∀ (s s' : St), ensureFilesAux env repo names s = .ok s' →
      FS.incl s.fs s'.fs ∧ s'.trace = s.trace ∧
      (∀ f ∈ names, pexists s'.fs (pyJoin repo f) = true) ∧
      (∀ f ∈ names, pexists s.fs (pyJoin repo f) = false →
          fileContent s'.fs (pyJoin repo f) = some "") := by
  induction names with
  | nil =>
    intro s s' h
    cases h
    exact ⟨FS.incl_refl _, rfl, by simp, by simp⟩
  | cons f rest ih =>
    intro s s' h
    unfold ensureFilesAux at h
    by_cases hx : pexists s.fs (pyJoin repo f) = true
    · rw [if_neg (by simp [hx])] at h
      obtain ⟨incl, htr, hall, hnew⟩ := ih s s' h
      refine ⟨incl, htr, ?_, ?_⟩
      · intro g hg
        rcases List.mem_cons.mp hg with rfl | hg'
        · exact incl.2.1 _ hx
        · exact hall g hg'
      · intro g hg hgx
        rcases List.mem_cons.mp hg with rfl | hg'
        · rw [hx] at hgx; cases hgx
        · exact hnew g hg' hgx
    · have hx' : pexists s.fs (pyJoin repo f) = false := by
        cases hc : pexists s.fs (pyJoin repo f) with
        | true => exact absurd hc hx
        | false => rfl
      rw [if_pos (by simp [hx'])] at h
      by_cases ho : env.openFails (pyJoin repo f) = true
      · rw [if_pos ho] at h; cases h
      · rw [if_neg ho] at h
        obtain ⟨incl, htr, hall, hnew⟩ := ih _ s' h
        have hwf : FS.incl s.fs (s.fs.writeFile (pyJoin repo f) "") :=
          FS.writeFile_incl s.fs (pyJoin repo f) "" (fileContent_none_of_not_pexists hx')
        refine ⟨FS.incl_trans hwf incl, htr, ?_, ?_⟩
        · intro g hg
          rcases List.mem_cons.mp hg with rfl | hg'
          · exact incl.2.1 _ (pexists_writeFile_self s.fs (pyJoin repo g) "")
          · exact hall g hg'
        · intro g hg hgx
          rcases List.mem_cons.mp hg with rfl | hg'
          · exact incl.2.2 _ _ (fileContent_writeFile_self s.fs (pyJoin repo g) "")
          · by_cases heq : pyJoin repo g = pyJoin repo f
            · rw [heq]
              exact incl.2.2 _ _ (fileContent_writeFile_self s.fs (pyJoin repo f) "")
            · refine hnew g hg' ?_
              show pexists (s.fs.writeFile (pyJoin repo f) "") (pyJoin repo g) = false
              rw [pexists_writeFile_of_ne s.fs (pyJoin repo f) "" (pyJoin repo g) heq]
              exact hgx

theorem ensureFilesAux_all_exist (env : Env) (repo : String) (names : List String) :
    ∀ (s : St), (∀ f ∈ names, pexists s.fs (pyJoin repo f) = true) →
      ensureFilesAux env repo names s = .ok s := by
  induction names with
  | nil => intro s _; rfl
  | cons f rest ih =>
    intro s hall
    unfold ensureFilesAux
    rw [if_neg (by simp [hall f (List.mem_cons_self f rest)])]
    exact ih s (fun g hg => hall g (List.mem_cons_of_mem f hg))

theorem initialize_repo_already {m : GitRepoManager} {env : Env} {s : St}
    (h : is_git_repo m s.fs = true) : initialize_repo m env s = .ok s := by
  unfold initialize_repo
  rw [if_neg (by simp [h])]

theorem is_git_repo_after_init (m : GitRepoManager) (fs : FS) :
    is_git_repo m (applyInv (.init m.repo_path) fs) = true := by
  simp [is_git_repo, applyInv, isDir, FS.makedirs]

theorem initialize_repo_ok {m : GitRepoManager} {env : Env} {s s' : St}
    (h : initialize_repo m env s = .ok s') :
    FS.incl s.fs s'.fs ∧ is_git_repo m s'.fs = true := by
  unfold initialize_repo at h
  by_cases hg : is_git_repo m s.fs = true
  · rw [if_neg (by simp [hg])] at h
    cases h
    exact ⟨FS.incl_refl _, hg⟩
  · rw [if_pos (by simp [Bool.not_eq_true] at hg ⊢; exact hg)] at h
    obtain ⟨u, hu, hv⟩ := except_bind_ok h
    obtain ⟨-, rfl⟩ := runInv_ok_iff.mp hu
    obtain ⟨-, rfl⟩ := runInv_ok_iff.mp hv
    refine ⟨?_, ?_⟩
    · exact FS.incl_trans (applyInv_incl _ s.fs)
        (applyInv_incl (.checkoutB m.repo_path m.branch) _)
    · show is_git_repo m (applyInv (.checkoutB m.repo_path m.branch)
        (applyInv (.init m.repo_path) s.fs)) = true
      exact is_git_repo_after_init m s.fs

/-- C1: running the bootstrap sequence (ensure_repo_path, then
ensure_tracked_files, then initialize_repo) twice against the same inputs
leaves the second run a no-op: after a completed first run the second run
returns the state unchanged — it creates no directory, creates or
modifies no file, and appends no invocation (in particular no
init/checkout) to the trace. -/
theorem bootstrap_idempotent (m : GitRepoManager) (env : Env) (s s₁ : St)
    (h : bootstrap m env s = .ok s₁) : bootstrap m env s₁ = .ok s₁ := by
  unfold bootstrap at h ⊢
  obtain ⟨a, ha, h2⟩ := except_bind_ok h
  obtain ⟨b, hb, hc⟩ := except_bind_ok h2
  obtain ⟨incl_a, hpa, -⟩ := ensure_repo_path_ok ha
  obtain ⟨incl_b, -, hall, -⟩ := ensureFilesAux_ok env m.repo_path m.tracked_files a b hb
  obtain ⟨incl_c, hgit⟩ := initialize_repo_ok hc
  have hp₁ : pexists s₁.fs m.repo_path = true := incl_c.2.1 _ (incl_b.2.1 _ hpa)
  have hall₁ : ∀ f ∈ m.tracked_files, pexists s₁.fs (pyJoin m.repo_path f) = true :=
    fun f hf => incl_c.2.1 _ (hall f hf)
  have e2 : ensure_tracked_files m env s₁ = .ok s₁ :=
    ensureFilesAux_all_exist env m.repo_path m.tracked_files s₁ hall₁
  rw [except_bind_of_ok (ensure_repo_path_already hp₁), except_bind_of_ok e2]
  exact initialize_repo_already hgit

theorem bootstrap_idempotent_witness :
    bootstrap (mkManager "/" "r1" (.ofString "a.txt,b.conf") "main") envOk
      ⟨⟨["/r1/.git", "/r1"], [("/r1/b.conf", ""), ("/r1/a.txt", "")], []⟩,
        [.init "/r1", .checkoutB "/r1" "main"]⟩ =
      .ok ⟨⟨["/r1/.git", "/r1"], [("/r1/b.conf", ""), ("/r1/a.txt", "")], []⟩,
        [.init "/r1", .checkoutB "/r1" "main"]⟩ :=
  bootstrap_idempotent (mkManager "/" "r1" (.ofString "a.txt,b.conf") "main") envOk
    ⟨⟨[], [], []⟩, []⟩ _ (by decide)

/-- C2: ensure_tracked_files creates a zero-byte file at each tracked
path that does not yet exist, and preserves the content of every file
that already exists — in particular every tracked path that already
exists keeps its content, whatever it is. -/
theorem ensure_tracked_files_spec (m : GitRepoManager) (env : Env) (s s' : St)
    (h : ensure_tracked_files m env s = .ok s') :
    (∀ f ∈ m.tracked_files, pexists s.fs (pyJoin m.repo_path f) = false →
        fileContent s'.fs (pyJoin m.repo_path f) = some "") ∧
    (∀ p c, fileContent s.fs p = some c → fileContent s'.fs p = some c) := by
  obtain ⟨incl, -, -, hnew⟩ := ensureFilesAux_ok env m.repo_path m.tracked_files s s' h
  exact ⟨hnew, incl.2.2⟩

theorem ensure_tracked_files_spec_witness :
    fileContent (FS.mk ["/r"] [("/r/b.txt", ""), ("/r/a.txt", "KEEP")] []) "/r/b.txt" = some "" ∧
    fileContent (FS.mk ["/r"] [("/r/b.txt", ""), ("/r/a.txt", "KEEP")] []) "/r/a.txt" = some "KEEP" :=
  ⟨(ensure_tracked_files_spec ⟨"/r", ["a.txt", "b.txt"], "main"⟩ envOk
      ⟨⟨["/r"], [("/r/a.txt", "KEEP")], []⟩, []⟩
      ⟨⟨["/r"], [("/r/b.txt", ""), ("/r/a.txt", "KEEP")], []⟩, []⟩ (by decide)).1
      "b.txt" (by decide) (by decide),
   (ensure_tracked_files_spec ⟨"/r", ["a.txt", "b.txt"], "main"⟩ envOk
      ⟨⟨["/r"], [("/r/a.txt", "KEEP")], []⟩, []⟩
      ⟨⟨["/r"], [("/r/b.txt", ""), ("/r/a.txt", "KEEP")], []⟩, []⟩ (by decide)).2
      "/r/a.txt" "KEEP" (by decide)⟩

/-- C3: when repository metadata (the .git directory) is already present,
initialize_repo performs no tool invocation and returns the state
unchanged, whatever branch the manager was constructed with; when no
metadata is present and the two commands succeed, it runs git init and
creates/checks out the configured branch. -/
theorem initialize_repo_spec (m : GitRepoManager) (env : Env) (s : St) :
    (∀ b, is_git_repo m s.fs = true → initialize_repo { m with branch := b } env s = .ok s) ∧
    (is_git_repo m s.fs = false →
      env.cmdFails (Invocation.init m.repo_path).argv = false →
      env.cmdFails (Invocation.checkoutB m.repo_path m.branch).argv = false →
      initialize_repo m env s =
        .ok ⟨s.fs.makedirs (pyJoin m.repo_path ".git"),
             s.trace ++ [.init m.repo_path, .checkoutB m.repo_path m.branch]⟩) := by
  constructor
  · intro b hg
    exact initialize_repo_already hg
  · intro hg h1 h2
    unfold initialize_repo
    rw [if_pos (by simp [hg])]
    rw [except_bind_of_ok (runInv_succ h1), runInv_succ h2]
    simp [applyInv]

theorem initialize_repo_spec_witness :
    initialize_repo ⟨"/r", [], "main"⟩ envOk ⟨⟨["/r"], [], []⟩, []⟩ =
      .ok ⟨⟨["/r/.git", "/r"], [], []⟩, [.init "/r", .checkoutB "/r" "main"]⟩ :=
  (initialize_repo_spec ⟨"/r", [], "main"⟩ envOk ⟨⟨["/r"], [], []⟩, []⟩).2
    (by decide) (by decide) (by decide)

theorem applyInv_add (p f : String) (fs : FS) : applyInv (.add p f) fs = fs := rfl

theorem applyInv_remoteList (p : String) (fs : FS) : applyInv (.remoteList p) fs = fs := rfl

theorem addFilesAux_all_ok (env : Env) (repo : String) (names : List String) :
    ∀ (s : St),
      (∀ f ∈ names, env.cmdFails (Invocation.add repo (pyJoin repo f)).argv = false) →
      addFilesAux env repo names s =
        .ok ⟨s.fs, s.trace ++ names.map (fun f => Invocation.add repo (pyJoin repo f))⟩ := by
  induction names with
  | nil => intro s _; simp [addFilesAux]
  | cons f rest ih =>
    intro s hall
    unfold addFilesAux
    rw [except_bind_of_ok (runInv_succ (hall f (List.mem_cons_self f rest)))]
    rw [ih _ (fun g hg => hall g (List.mem_cons_of_mem f hg))]
    simp [applyInv_add]

theorem addFilesAux_first_fail (env : Env) (repo : String) :
    ∀ (pre : List String) (f : String) (post : List String) (s : St),
      (∀ g ∈ pre, env.cmdFails (Invocation.add repo (pyJoin repo g)).argv = false) →
      env.cmdFails (Invocation.add repo (pyJoin repo f)).argv = true →
      addFilesAux env repo (pre ++ f :: post) s =
        .error (1, ⟨s.fs,
          s.trace ++ (pre ++ [f]).map (fun g => Invocation.add repo (pyJoin repo g))⟩) := by
  intro pre
  induction pre with
  | nil =>
    intro f post s _ hf
    rw [List.nil_append]
    unfold addFilesAux
    rw [except_bind_of_error (runInv_fail hf)]
    simp
  | cons g pre' ih =>
    intro f post s hpre hf
    rw [List.cons_append]
    unfold addFilesAux
    rw [except_bind_of_ok (runInv_succ (hpre g (List.mem_cons_self g pre')))]
    rw [ih f post _ (fun x hx => hpre x (List.mem_cons_of_mem g hx)) hf]
    simp [applyInv_add]

/-- C5: add_files issues exactly one add invocation per tracked-list
element, in list order, when every add succeeds; and when some element's
add fails, the run ends with exit code 1 right after the first failing
element's invocation, so no later element is staged. -/
theorem add_files_spec (m : GitRepoManager) (env : Env) (s : St) :
    ((∀ f ∈ m.tracked_files,
        env.cmdFails (Invocation.add m.repo_path (pyJoin m.repo_path f)).argv = false) →
      add_files m env s =
        .ok ⟨s.fs, s.trace ++
          m.tracked_files.map (fun f => Invocation.add m.repo_path (pyJoin m.repo_path f))⟩) ∧
    (∀ pre f post, m.tracked_files = pre ++ f :: post →
      (∀ g ∈ pre, env.cmdFails (Invocation.add m.repo_path (pyJoin m.repo_path g)).argv = false) →
      env.cmdFails (Invocation.add m.repo_path (pyJoin m.repo_path f)).argv = true →
      add_files m env s =
        .error (1, ⟨s.fs, s.trace ++
          (pre ++ [f]).map (fun g => Invocation.add m.repo_path (pyJoin m.repo_path g))⟩)) := by
  constructor
  · intro hall
    exact addFilesAux_all_ok env m.repo_path m.tracked_files s hall
  · intro pre f post hsplit hpre hf
    show addFilesAux env m.repo_path m.tracked_files s = _
    rw [hsplit]
    exact addFilesAux_first_fail env m.repo_path pre f post s hpre hf

theorem add_files_spec_witness :
    add_files ⟨"/r", ["a.txt", "b.txt", "c.txt"], "main"⟩ envFailAdd ⟨⟨[], [], []⟩, []⟩ =
      .error (1, ⟨⟨[], [], []⟩, [.add "/r" "/r/a.txt", .add "/r" "/r/b.txt"]⟩) :=
  (add_files_spec ⟨"/r", ["a.txt", "b.txt", "c.txt"], "main"⟩ envFailAdd ⟨⟨[], [], []⟩, []⟩).2
    ["a.txt"] "b.txt" ["c.txt"] (by decide) (by decide) (by decide)

theorem add_remote_unfold (m : GitRepoManager) (env : Env) (name url : String) (s : St)
    (hq : env.cmdFails (Invocation.remoteList m.repo_path).argv = false) :
    add_remote m env name url s =
      if (remoteNames s.fs).contains name then
        runInv env (.remoteSetUrl m.repo_path name url)
          ⟨s.fs, s.trace ++ [.remoteList m.repo_path]⟩
      else
        runInv env (.remoteAdd m.repo_path name url)
          ⟨s.fs, s.trace ++ [.remoteList m.repo_path]⟩ := by
  unfold add_remote
  rw [except_bind_of_ok (runInv_succ hq)]
  rfl

theorem not_mem_of_contains_false {l : List String} {a : String}
    (h : l.contains a = false) : a ∉ l := by
  intro hmem
  rw [contains_iff_mem.mpr hmem] at h
  cases h

/-- C4: add_remote first queries the remote list; when the name is
already present it issues only a set-url invocation, which rewrites that
entry's URL and leaves the remote names (so also their count) unchanged;
when the name is absent it issues exactly one add invocation, appending
one entry; consequently two calls with the same fresh name and different
URLs leave exactly one remote with that name, bearing the second URL. -/
theorem add_remote_upsert (m : GitRepoManager) (env : Env) (s : St) (name url₁ url₂ : String)
    (hq : env.cmdFails (Invocation.remoteList m.repo_path).argv = false)
    (ha₁ : env.cmdFails (Invocation.remoteAdd m.repo_path name url₁).argv = false)
    (hs₁ : env.cmdFails (Invocation.remoteSetUrl m.repo_path name url₁).argv = false)
    (hs₂ : env.cmdFails (Invocation.remoteSetUrl m.repo_path name url₂).argv = false) :
    ((remoteNames s.fs).contains name = true →
      add_remote m env name url₁ s =
        .ok ⟨⟨s.fs.dirs, s.fs.files,
              s.fs.remotes.map (fun e => if e.1 = name then (name, url₁) else e)⟩,
             s.trace ++ [.remoteList m.repo_path, .remoteSetUrl m.repo_path name url₁]⟩ ∧
      (s.fs.remotes.map (fun e => if e.1 = name then (name, url₁) else e)).map Prod.fst =
        s.fs.remotes.map Prod.fst) ∧
    ((remoteNames s.fs).contains name = false →
      add_remote m env name url₁ s =
        .ok ⟨⟨s.fs.dirs, s.fs.files, s.fs.remotes ++ [(name, url₁)]⟩,
             s.trace ++ [.remoteList m.repo_path, .remoteAdd m.repo_path name url₁]⟩) ∧
    ((remoteNames s.fs).contains name = false →
      ∀ s₁ s₂, add_remote m env name url₁ s = .ok s₁ → add_remote m env name url₂ s₁ = .ok s₂ →
        s₂.fs.remotes.filter (fun e => e.1 = name) = [(name, url₂)]) := by
  have habsent : (remoteNames s.fs).contains name = false →
      add_remote m env name url₁ s =
        .ok ⟨⟨s.fs.dirs, s.fs.files, s.fs.remotes ++ [(name, url₁)]⟩,
             s.trace ++ [.remoteList m.repo_path, .remoteAdd m.repo_path name url₁]⟩ := by
    intro hc
    rw [add_remote_unfold m env name url₁ s hq, hc]
    simp only [Bool.false_eq_true, if_false]
    rw [runInv_succ ha₁]
    simp [applyInv]
  refine ⟨?_, habsent, ?_⟩
  · intro hc
    constructor
    · rw [add_remote_unfold m env name url₁ s hq, hc]
      simp only [if_true]
      rw [runInv_succ hs₁]
      simp [applyInv]
    · rw [List.map_map]
      refine List.map_congr_left (fun e he => ?_)
      by_cases h : e.1 = name
      · simp [h]
      · simp [h]
  · intro hc s₁ s₂ h₁ h₂
    rw [habsent hc] at h₁
    have hs₁eq : s₁ = ⟨⟨s.fs.dirs, s.fs.files, s.fs.remotes ++ [(name, url₁)]⟩,
        s.trace ++ [.remoteList m.repo_path, .remoteAdd m.repo_path name url₁]⟩ :=
      (Except.ok.inj h₁).symm
    have hnames : (remoteNames s₁.fs).contains name = true := by
      rw [hs₁eq]
      refine contains_iff_mem.mpr ?_
      show name ∈ (s.fs.remotes ++ [(name, url₁)]).map Prod.fst
      rw [List.map_append]
      exact List.mem_append_right _ (by simp)
    rw [add_remote_unfold m env name url₂ s₁ hq, hnames] at h₂
    simp only [if_true] at h₂
    rw [runInv_succ hs₂] at h₂
    have hs₂eq := (Except.ok.inj h₂).symm
    rw [hs₂eq]
    show ((applyInv (.remoteSetUrl m.repo_path name url₂) s₁.fs).remotes).filter
      (fun e => e.1 = name) = [(name, url₂)]
    rw [hs₁eq]
    show ((s.fs.remotes ++ [(name, url₁)]).map
      (fun e => if e.1 = name then (name, url₂) else e)).filter (fun e => e.1 = name) =
      [(name, url₂)]
    rw [List.map_append, List.filter_append]
    have hrest : (s.fs.remotes.map (fun e => if e.1 = name then (name, url₂) else e)).filter
        (fun e => e.1 = name) = [] := by
      rw [List.filter_eq_nil_iff]
      intro e he
      obtain ⟨x, hx, rfl⟩ := List.mem_map.mp he
      have hxne : x.1 ≠ name := by
        intro hxeq
        exact not_mem_of_contains_false hc (by
          show name ∈ s.fs.remotes.map Prod.fst
          exact hxeq ▸ List.mem_map_of_mem Prod.fst hx)
      simp [if_neg hxne, hxne]
    rw [hrest]
    simp

theorem add_remote_upsert_witness :
    (FS.mk [] [] [("up", "x"), ("origin", "u2")]).remotes.filter
      (fun e => e.1 = "origin") = [("origin", "u2")] :=
  (add_remote_upsert ⟨"/r", [], "main"⟩ envOk sRemote "origin" "u1" "u2"
      (by decide) (by decide) (by decide) (by decide)).2.2 (by decide)
    ⟨⟨[], [], [("up", "x"), ("origin", "u1")]⟩,
      [.remoteList "/r", .remoteAdd "/r" "origin" "u1"]⟩
    ⟨⟨[], [], [("up", "x"), ("origin", "u2")]⟩,
      [.remoteList "/r", .remoteAdd "/r" "origin" "u1",
       .remoteList "/r", .remoteSetUrl "/r" "origin" "u2"]⟩
    (by decide) (by decide)

theorem errOne_ok {s : St} : ErrOne (.ok s) := by
  intro e s' h
  cases h

theorem errOne_runInv (env : Env) (inv : Invocation) (s : St) : ErrOne (runInv env inv s) := by
  intro e s' h
  unfold runInv at h
  split at h
  · cases h; rfl
  · cases h

theorem errOne_bind {a : Res} {f : St → Res} (ha : ErrOne a) (hf : ∀ u, ErrOne (f u)) :
    ErrOne (a >>= f) := by
  intro e s' h
  cases a with
  | error x =>
    rw [except_bind_of_error rfl] at h
    exact ha e s' h
  | ok u =>
    rw [except_bind_of_ok rfl] at h
    exact hf u e s' h

theorem errOne_ensure_repo_path (m : GitRepoManager) (env : Env) (s : St) :
    ErrOne (ensure_repo_path m env s) := by
  intro e s' h
  unfold ensure_repo_path at h
  split at h
  · split at h
    · cases h; rfl
    · cases h
  · cases h

theorem errOne_ensureFilesAux (env : Env) (repo : String) (names : List String) :
    ∀ s, ErrOne (ensureFilesAux env repo names s) := by
  induction names with
  | nil => intro s e s' h; cases h
  | cons f rest ih =>
    intro s e s' h
    unfold ensureFilesAux at h
    by_cases hx : pexists s.fs (pyJoin repo f) = true
    · rw [if_neg (by simp [hx])] at h
      exact ih _ e s' h
    · rw [if_pos (by simp [Bool.not_eq_true] at hx ⊢; exact hx)] at h
      by_cases ho : env.openFails (pyJoin repo f) = true
      · rw [if_pos ho] at h; cases h; rfl
      · rw [if_neg ho] at h
        exact ih _ e s' h

theorem errOne_initialize_repo (m : GitRepoManager) (env : Env) (s : St) :
    ErrOne (initialize_repo m env s) := by
  unfold initialize_repo
  split
  · exact errOne_bind (errOne_runInv env _ s) (fun u => errOne_runInv env _ u)
  · exact errOne_ok

theorem errOne_addFilesAux (env : Env) (repo : String) (names : List String) :
    ∀ s, ErrOne (addFilesAux env repo names s) := by
  induction names with
  | nil => intro s e s' h; cases h
  | cons f rest ih =>
    intro s
    unfold addFilesAux
    exact errOne_bind (errOne_runInv env _ s) (fun u => ih u)

theorem errOne_add_remote (m : GitRepoManager) (env : Env) (n u : String) (s : St) :
    ErrOne (add_remote m env n u s) := by
  unfold add_remote
  refine errOne_bind (errOne_runInv env _ s) (fun s1 => ?_)
  split
  · exact errOne_runInv env _ s1
  · exact errOne_runInv env _ s1

theorem errOne_bootstrap (m : GitRepoManager) (env : Env) (s : St) :
    ErrOne (bootstrap m env s) := by
  unfold bootstrap
  refine errOne_bind (errOne_ensure_repo_path m env s) (fun s1 => ?_)
  exact errOne_bind (errOne_ensureFilesAux env m.repo_path m.tracked_files s1)
    (fun s2 => errOne_initialize_repo m env s2)

theorem errOne_runSubcommand (cwd : String) (env : Env) (sc : Subcommand) (s : St) :
    ErrOne (runSubcommand cwd env sc s) := by
  cases sc with
  | init rp tf br =>
    exact errOne_bind (errOne_runInv env .version s)
      (fun s1 => errOne_bootstrap (mkManager cwd rp (.ofString tf) br) env s1)
  | add rp tf => exact errOne_addFilesAux env _ _ s
  | commit rp msg => exact errOne_runInv env _ s
  | status rp => exact errOne_runInv env _ s
  | push rp remote br => exact errOne_runInv env _ s
  | log rp => exact errOne_runInv env _ s
  | diff rp => exact errOne_runInv env _ s
  | listBranches rp => exact errOne_runInv env _ s
  | switchBranch rp br => exact errOne_runInv env _ s
  | addRemote rp n u => exact errOne_add_remote (mkManager cwd rp (.ofList []) "main") env n u s

/-- C6: for every CLI operation of the wrapper, the process terminates
with exit code 0 exactly when the run completed, and every exit taken on
a fatal precondition or tool-invocation failure carries exit code 1, so
the exit code is always 0 or 1; failures are Except.error exits, which
short-circuit the rest of the run (fail-fast, nothing caught or retried). -/
theorem process_exit_codes (cwd : String) (env : Env) (sc : Subcommand) (s : St) :
    (exitCode (runSubcommand cwd env sc s) = 0 ↔
      ∃ s', runSubcommand cwd env sc s = .ok s') ∧
    (exitCode (runSubcommand cwd env sc s) = 0 ∨ exitCode (runSubcommand cwd env sc s) = 1) := by
  have herr := errOne_runSubcommand cwd env sc s
  cases hres : runSubcommand cwd env sc s with
  | ok u =>
    constructor
    · exact ⟨fun _ => ⟨u, rfl⟩, fun _ => rfl⟩
    · exact Or.inl rfl
  | error p =>
    obtain ⟨e, u⟩ := p
    have he : e = 1 := herr e u hres
    subst he
    constructor
    · constructor
      · intro h0; cases h0
      · rintro ⟨s', hs⟩; cases hs
    · exact Or.inr rfl

theorem finalState_runInv_fail {env : Env} {inv : Invocation} {s : St}
    (h : env.cmdFails inv.argv = true) :
    (finalState (runInv env inv s)).fs = s.fs := by
  rw [runInv_fail h]
  rfl

theorem finalState_addFilesAux_allfail (env : Env) (repo : String) (names : List String)
    (s : St) (hmiss : ∀ a, env.cmdFails a = true) :
    (finalState (addFilesAux env repo names s)).fs = s.fs := by
  cases names with
  | nil => rfl
  | cons f rest =>
    show (finalState (runInv env (.add repo (pyJoin repo f)) s >>= fun s1 =>
      addFilesAux env repo rest s1)).fs = s.fs
    rw [except_bind_of_error (runInv_fail (hmiss _))]
    rfl

/-- C7, amended: when the external tool is missing (every invocation
fails), no run changes the filesystem — no directory and no file is
created; the init flow in particular detects the absence at the version
probe, reports it and exits with code 1 before any mutating step, its
trace holding only the non-mutating probe.  A run that issues no tool
invocation at all exits 0 without detecting the absence. -/
theorem tool_missing_guard (cwd rp tf br : String) (sc : Subcommand) (env : Env) (s : St)
    (hmiss : ∀ a, env.cmdFails a = true) :
    runSubcommand cwd env (.init rp tf br) s =
      .error (1, ⟨s.fs, s.trace ++ [.version]⟩) ∧
    (finalState (runSubcommand cwd env sc s)).fs = s.fs := by
  have hprobe : check_git_installed env s =
      .error (1, ⟨s.fs, s.trace ++ [Invocation.version]⟩) := runInv_fail (hmiss _)
  constructor
  · show (check_git_installed env s >>= fun s1 =>
      bootstrap (mkManager cwd rp (.ofString tf) br) env s1) = _
    rw [except_bind_of_error hprobe]
  · cases sc with
    | init rp' tf' br' =>
      show (finalState (check_git_installed env s >>= fun s1 =>
        bootstrap (mkManager cwd rp' (.ofString tf') br') env s1)).fs = s.fs
      rw [except_bind_of_error hprobe]
      rfl
    | add rp' tf' => exact finalState_addFilesAux_allfail env _ _ s hmiss
    | commit rp' msg => exact finalState_runInv_fail (hmiss _)
    | status rp' => exact finalState_runInv_fail (hmiss _)
    | push rp' remote br' => exact finalState_runInv_fail (hmiss _)
    | log rp' => exact finalState_runInv_fail (hmiss _)
    | diff rp' => exact finalState_runInv_fail (hmiss _)
    | listBranches rp' => exact finalState_runInv_fail (hmiss _)
    | switchBranch rp' br' => exact finalState_runInv_fail (hmiss _)
    | addRemote rp' n u =>
      show (finalState (runInv env (.remoteList (mkManager cwd rp' (.ofList []) "main").repo_path)
        s >>= _)).fs = s.fs
      rw [except_bind_of_error (runInv_fail (hmiss _))]
      rfl

theorem tool_missing_guard_witness :
    runSubcommand "/" envAllFail (.init "/r" "a.txt" "main") ⟨⟨[], [], []⟩, []⟩ =
      .error (1, ⟨⟨[], [], []⟩, [.version]⟩) ∧
    (finalState (runSubcommand "/" envAllFail (.status "/r") ⟨⟨[], [], []⟩, []⟩)).fs =
      ⟨[], [], []⟩ :=
  ⟨(tool_missing_guard "/" "/r" "a.txt" "main" (.status "/r") envAllFail
      ⟨⟨[], [], []⟩, []⟩ (fun _ => rfl)).1,
   (tool_missing_guard "/" "/r" "a.txt" "main" (.status "/r") envAllFail
      ⟨⟨[], [], []⟩, []⟩ (fun _ => rfl)).2⟩

/-- C7, counterexample: with the tool missing (every invocation fails,
the version probe included), the add subcommand applied to an empty
tracked-file string issues no invocation, reports nothing and the process
exits with code 0 — not nonzero as the claim states. -/
theorem tool_missing_exits_zero_cex :
    (∀ a, envAllFail.cmdFails a = true) ∧
    runSubcommand "/" envAllFail (.add "/r" "") ⟨⟨[], [], []⟩, []⟩ = .ok ⟨⟨[], [], []⟩, []⟩ ∧
    exitCode (runSubcommand "/" envAllFail (.add "/r" "") ⟨⟨[], [], []⟩, []⟩) = 0 :=
  ⟨fun _ => rfl, rfl, rfl⟩

theorem isAbs_append_left {a : String} (h : isAbs a = true) (b : String) :
    isAbs (a ++ b) = true := by
  unfold isAbs at h ⊢
  rw [beq_iff_eq] at h ⊢
  rw [String.data_append]
  cases hd : a.data with
  | nil => rw [hd] at h; cases h
  | cons c t =>
    rw [hd] at h
    rw [List.head?_cons] at h
    rw [List.cons_append, List.head?_cons]
    exact h

theorem isAbs_pyJoin_left {a : String} (h : isAbs a = true) {b : String}
    (hb : isAbs b = false) : isAbs (pyJoin a b) = true := by
  unfold pyJoin
  rw [if_neg (by simp [hb])]
  split
  · exact isAbs_append_left h b
  · exact isAbs_append_left (isAbs_append_left h "/") b

theorem initSlashes_pos {p : String} (h : isAbs p = true) : 1 ≤ initSlashes p := by
  unfold isAbs at h
  rw [beq_iff_eq] at h
  unfold initSlashes
  rw [if_pos h]
  split
  · split
    · omega
    · omega
  · omega

theorem slashes_append_data (k : Nat) (str : String) :
    (String.mk (List.replicate k '/') ++ str).data = List.replicate k '/' ++ str.data := by
  rw [String.data_append]

theorem slashes_append_ne_empty {k : Nat} (hk : 1 ≤ k) (str : String) :
    String.mk (List.replicate k '/') ++ str ≠ "" := by
  intro he
  have hd := congrArg String.data he
  rw [slashes_append_data] at hd
  obtain ⟨j, rfl⟩ : ∃ j, k = j + 1 := ⟨k - 1, by omega⟩
  rw [List.replicate_succ] at hd
  cases hd

theorem isAbs_slashes_append {k : Nat} (hk : 1 ≤ k) (str : String) :
    isAbs (String.mk (List.replicate k '/') ++ str) = true := by
  unfold isAbs
  rw [beq_iff_eq, slashes_append_data]
  obtain ⟨j, rfl⟩ : ∃ j, k = j + 1 := ⟨k - 1, by omega⟩
  rw [List.replicate_succ, List.cons_append, List.head?_cons]

theorem isAbs_ne_empty {p : String} (h : isAbs p = true) : p ≠ "" := by
  intro he
  rw [he] at h
  cases h

theorem isAbs_normpath {p : String} (h : isAbs p = true) : isAbs (normpath p) = true := by
  unfold normpath
  rw [if_neg (isAbs_ne_empty h)]
  show isAbs (if (String.mk (List.replicate (initSlashes p) '/') ++
      joinSep "/" ((pySplit p '/').foldl (normStep (initSlashes p)) [])) = "" then "."
    else String.mk (List.replicate (initSlashes p) '/') ++
      joinSep "/" ((pySplit p '/').foldl (normStep (initSlashes p)) [])) = true
  rw [if_neg (slashes_append_ne_empty (initSlashes_pos h) _)]
  exact isAbs_slashes_append (initSlashes_pos h) _

theorem isAbs_abspath (cwd p : String) (h : isAbs cwd = true) :
    isAbs (abspath cwd p) = true := by
  unfold abspath
  by_cases hp : isAbs p = true
  · rw [if_pos hp]
    exact isAbs_normpath hp
  · have hp' : isAbs p = false := by
      cases hc : isAbs p with
      | true => exact absurd hc hp
      | false => rfl
    rw [if_neg (by simp [hp'])]
    exact isAbs_normpath (isAbs_pyJoin_left h hp')

/-- C8: the constructor normalizes the repository path with abspath
against the current working directory before any operation can run, and
the stored repo_path is an absolute path whenever the working directory
is absolute; the operations take the constructed manager as an immutable
value and consult no working directory afterwards. -/
theorem repo_path_absolute (cwd repoPath branch : String) (tracked : TrackedArg)
    (h : isAbs cwd = true) :
    (mkManager cwd repoPath tracked branch).repo_path = abspath cwd repoPath ∧
    isAbs (mkManager cwd repoPath tracked branch).repo_path = true :=
  ⟨rfl, isAbs_abspath cwd repoPath h⟩

theorem repo_path_absolute_witness :
    (mkManager "/home/u" "proj/../r1" (.ofString "a.txt") "main").repo_path =
      abspath "/home/u" "proj/../r1" ∧
    isAbs (mkManager "/home/u" "proj/../r1" (.ofString "a.txt") "main").repo_path = true :=
  repo_path_absolute "/home/u" "proj/../r1" "main" (.ofString "a.txt") (by decide)

theorem dropWhile_head_false {q : Char → Bool} :
    ∀ (l : List Char) (c : Char) (t : List Char), l.dropWhile q = c :: t → q c = false := by
  intro l
  induction l with
  | nil => intro c t h; cases h
  | cons a l' ih =>
    intro c t h
    rw [List.dropWhile_cons] at h
    split at h
    · exact ih c t h
    · next hqa =>
      cases h
      cases hc : q a with
      | true => exact absurd hc hqa
      | false => rfl

theorem pyStrip_all_space_false {f : String} (hne : pyStrip f ≠ "") :
    (pyStrip f).data.all isPySpace = false := by
  unfold pyStrip at hne ⊢
  cases hd : ((f.data.dropWhile isPySpace).reverse.dropWhile isPySpace) with
  | nil =>
    exfalso
    apply hne
    rw [hd]
    rfl
  | cons c t =>
    have hc : isPySpace c = false := dropWhile_head_false _ c t hd
    show ((c :: t).reverse).all isPySpace = false
    rw [List.all_reverse, List.all_cons, hc]
    rfl

theorem parseTracked_no_blank (s : String) :
    ∀ f ∈ parseTracked s, f.data.all isPySpace = false := by
  intro f hf
  unfold parseTracked at hf
  obtain ⟨a, ha, hfa⟩ := List.mem_filterMap.mp hf
  change (if pyStrip a = "" then none else some (pyStrip a)) = some f at hfa
  by_cases hg : pyStrip a = ""
  · rw [if_pos hg] at hfa
    cases hfa
  · rw [if_neg hg] at hfa
    obtain rfl : f = pyStrip a := (Option.some.inj hfa).symm
    exact pyStrip_all_space_false hg

/-- C9: a comma-string tracked_files argument is split on commas, each
segment stripped of surrounding whitespace and empty segments dropped, so
no stored name is empty or whitespace-only (all-whitespace evaluates to
false on every stored name, and the empty name would evaluate to true);
a list argument is stored unchanged, duplicates and order preserved. -/
theorem tracked_files_wellformed :
    (∀ s f, f ∈ parseTracked s → f.data.all isPySpace = false) ∧
    (∀ cwd p branch l, (mkManager cwd p (.ofList l) branch).tracked_files = l) ∧
    (∀ cwd p branch str,
      (mkManager cwd p (.ofString str) branch).tracked_files = parseTracked str) :=
  ⟨fun s f hf => parseTracked_no_blank s f hf, fun _ _ _ _ => rfl, fun _ _ _ _ => rfl⟩

theorem tracked_files_wellformed_witness :
    ("a.txt").data.all isPySpace = false ∧
    (mkManager "/" "r" (.ofList ["x", "x", ""]) "main").tracked_files = ["x", "x", ""] :=
  ⟨tracked_files_wellformed.1 " a.txt , ,, " "a.txt" (by decide),
   tracked_files_wellformed.2.1 "/" "r" "main" ["x", "x", ""]⟩

/-- C10: a tracked name that is itself an absolute path joins to itself,
so ensure_tracked_files creates the file at that absolute path outside
the repository directory and add_files stages that absolute path, not a
repository-relative one. -/
theorem absolute_tracked_name (r f branch : String) (env : Env) (s : St)
    (h : isAbs f = true) :
    pyJoin r f = f ∧
    (env.cmdFails (Invocation.add r f).argv = false →
      add_files ⟨r, [f], branch⟩ env s = .ok ⟨s.fs, s.trace ++ [.add r f]⟩) ∧
    (pexists s.fs f = false → env.openFails f = false →
      ensure_tracked_files ⟨r, [f], branch⟩ env s = .ok ⟨s.fs.writeFile f "", s.trace⟩) := by
  have hj : pyJoin r f = f := by
    unfold pyJoin
    rw [if_pos h]
  refine ⟨hj, ?_, ?_⟩
  · intro hc
    show addFilesAux env r [f] s = _
    unfold addFilesAux
    rw [hj]
    rw [except_bind_of_ok (runInv_succ hc)]
    show Except.ok (St.mk (applyInv (.add r f) s.fs) (s.trace ++ [.add r f])) =
      Except.ok (St.mk s.fs (s.trace ++ [.add r f]))
    rw [applyInv_add]
  · intro hex ho
    show ensureFilesAux env r [f] s = _
    unfold ensureFilesAux
    rw [hj]
    rw [if_pos (by simp [hex]), if_neg (by simp [ho])]
    rfl

theorem absolute_tracked_name_witness :
    pyJoin "/repo" "/etc/hosts" = "/etc/hosts" ∧
    add_files ⟨"/repo", ["/etc/hosts"], "main"⟩ envOk ⟨⟨[], [], []⟩, []⟩ =
      .ok ⟨⟨[], [], []⟩, [.add "/repo" "/etc/hosts"]⟩ :=
  ⟨(absolute_tracked_name "/repo" "/etc/hosts" "main" envOk ⟨⟨[], [], []⟩, []⟩ (by decide)).1,
   (absolute_tracked_name "/repo" "/etc/hosts" "main" envOk
      ⟨⟨[], [], []⟩, []⟩ (by decide)).2.1 (by decide)⟩
